import Mathlib

/-!
Verification of the irc_hook core (Content Extractor, Match Engine,
Template Renderer, Dispatch Engine request construction) against its
natural-language specification.

The Rust sources are shallowly embedded:
* strings are Lean `String` / `List Char`;
* the `regex` crate is modelled by an abstract interface `Regex` whose
  single primitive `capturesIter` stands for `Regex::captures_iter`
  (the list of all non-overlapping matches found scanning left to
  right, each with the full-match text and the optional sub-group
  captures); `is_match` is derived from it, per the crate's documented
  guarantee that `is_match` holds exactly when some match exists;
* fallible regex compilation (`Regex::new(..).unwrap()`) is a
  parameter `compile : String → Option Regex`, `none` meaning an
  invalid pattern, and a panicking `unwrap` makes the embedded
  function return `none`;
* stateful handlers become explicit state passing: `handle_msg`
  returns the updated handler state together with the list of
  capture-group sets handed to the publisher (`[]` when nothing is
  dispatched).
-/

namespace IrcHook

/-- Rust `char::is_whitespace`: the Unicode White_Space property,
used by `str::trim`. -/
def rustIsWhitespace (c : Char) : Bool :=
  let n := c.toNat
  (0x09 ≤ n && n ≤ 0x0D) || n == 0x20 || n == 0x85 || n == 0xA0 ||
  n == 0x1680 || (0x2000 ≤ n && n ≤ 0x200A) || n == 0x2028 ||
  n == 0x2029 || n == 0x202F || n == 0x205F || n == 0x3000

/-- Rust `str::trim`: remove leading and trailing whitespace. -/
def rustTrim (s : List Char) : List Char :=
  ((s.dropWhile rustIsWhitespace).reverse.dropWhile rustIsWhitespace).reverse

/-- Embedding of `get_content` (src/main.rs lines 231-241 and the identical
copy in src/message_handler.rs lines 36-46): skip the first character,
consume up to and including the next `:` (Rust `Iterator::find`), and
return the remaining characters trimmed; `None` when no such colon
exists. -/
def get_content (m : String) : Option String :=
  let chrs := m.data.drop 1
  match chrs.dropWhile (fun c => c != ':') with
  | [] => none
  | _ :: after => some ⟨rustTrim after⟩

lemma dropWhile_ne_colon_of_not_mem {pre : List Char} (h : ':' ∉ pre)
    (rest : List Char) :
    (pre ++ ':' :: rest).dropWhile (fun c => c != ':') = ':' :: rest := by
  induction pre with
  | nil => simp [List.dropWhile]
  | cons c cs ih =>
    have hc : c ≠ ':' := by
      intro hc; exact h (hc ▸ List.mem_cons_self c cs)
    have hcs : ':' ∉ cs := fun hm => h (List.mem_cons_of_mem c hm)
    simp only [List.cons_append, List.dropWhile_cons]
    simp [hc, ih hcs]

lemma dropWhile_ne_colon_eq_nil_of_not_mem {l : List Char} (h : ':' ∉ l) :
    l.dropWhile (fun c => c != ':') = [] := by
  induction l with
  | nil => rfl
  | cons c cs ih =>
    have hc : c ≠ ':' := by
      intro hc; exact h (hc ▸ List.mem_cons_self c cs)
    have hcs : ':' ∉ cs := fun hm => h (List.mem_cons_of_mem c hm)
    simp only [List.dropWhile_cons]
    simp [hc, ih hcs]

/-- C5: the Content Extractor skips exactly one leading character, scans
forward for the next colon, and returns everything after that colon with
surrounding whitespace trimmed; if no colon exists past the first
character it returns none; in particular on a raw line
`":" ++ prefixPart ++ ":" ++ rest` with no colon in `prefixPart` it
returns `trim rest`. -/
theorem get_content_spec :
    (∀ m : String, ':' ∉ m.data.drop 1 → get_content m = none) ∧
    (∀ (c : Char) (pre rest : List Char), ':' ∉ pre →
      get_content ⟨c :: (pre ++ ':' :: rest)⟩ = some ⟨rustTrim rest⟩) ∧
    (∀ (pre rest : List Char), ':' ∉ pre →
      get_content ⟨':' :: (pre ++ ':' :: rest)⟩ = some ⟨rustTrim rest⟩) := by
  refine ⟨?_, ?_, ?_⟩
  · intro m h
    simp only [get_content]
    rw [dropWhile_ne_colon_eq_nil_of_not_mem h]
  · intro c pre rest h
    simp only [get_content, List.drop_one, List.tail_cons]
    rw [dropWhile_ne_colon_of_not_mem h]
  · intro pre rest h
    simp only [get_content, List.drop_one, List.tail_cons]
    rw [dropWhile_ne_colon_of_not_mem h]

/-- Witness for C5 at the concrete line used by the repository's own test:
`":first part:Hello this is a message"`. -/
theorem get_content_spec_witness :
    get_content ⟨':' :: (("first part").data ++ ':' ::
        ("Hello this is a message").data)⟩ =
      some ⟨rustTrim ("Hello this is a message").data⟩ :=
  get_content_spec.2.2 ("first part").data ("Hello this is a message").data
    (by decide)

/-- One match occurrence reported by `Regex::captures_iter`: the crate
guarantees that group 0 (the full match text) is always present, while
sub-groups may not have participated (`none`). -/
structure Captures where
  full : String
  groups : List (Option String)
deriving DecidableEq

/-- Abstract model of a compiled `regex::Regex`: `capturesIter` stands
for `captures_iter`, listing every non-overlapping match found scanning
the haystack left to right, in order. -/
structure Regex where
  capturesIter : String → List Captures

/-- `Regex::is_match`, per the crate's guarantee that it holds exactly
when `captures_iter` yields at least one match. -/
def Regex.is_match (re : Regex) (s : String) : Bool :=
  !(re.capturesIter s).isEmpty

/-- Embedding of `match_groups` (src/main.rs lines 161-170 and the
identical copy in src/message_handler.rs lines 48-57): for each match,
iterate over group 0 (always `some full`) followed by the sub-groups and
keep only the captures that participated. -/
def match_groups (re : Regex) (content : String) : List (List String) :=
  (re.capturesIter content).map
    (fun group => (some group.full :: group.groups).filterMap id)

/-- Rust `v as usize` for a 64-bit target applied to an `i32` value
`v : Int` (sign extension: two's-complement reduction modulo 2^64). -/
def i32_as_usize (v : Int) : Nat :=
  ((v % (2 : Int) ^ 64 + 2 ^ 64) % 2 ^ 64).toNat

/-- Embedding of the `MessageHandler` struct of src/main.rs lines 76-85
(the publisher field is carried separately by the embedding of
`handle_msg`, which returns the capture-group sets handed to it). -/
structure MessageHandler where
  search_pattern : String
  multi_line : Bool
  line_limit : Int
  line_init_pattern : String
  line_conclude_pattern : String
  lines_buffer : List String
deriving DecidableEq

/-- Embedding of `MessageHandler::new` (src/main.rs lines 88-107): the
pattern strings are stored as given, nothing is compiled, and the buffer
starts empty. -/
def MessageHandler.new (search_pattern : String) (multi_line : Bool)
    (line_limit : Int) (line_init_pattern : String)
    (line_conclude_pattern : String) : MessageHandler :=
  { search_pattern, multi_line, line_limit, line_init_pattern,
    line_conclude_pattern, lines_buffer := [] }

/-- Embedding of `MessageHandler::handle_msg` (src/main.rs lines
109-158). `compile` models `Regex::new`; the three `unwrap`s make the
result `none` (a panic) when any stored pattern fails to compile. The
result pairs the updated handler state with the list of capture-group
sets passed to `publish` (`[]` when no dispatch happens). -/
def handle_msg (compile : String → Option Regex)
    (self : MessageHandler) (msg : String) :
    Option (MessageHandler × List (List String)) :=
  match get_content msg with
  | none => some (self, [])
  | some content =>
    match compile self.search_pattern, compile self.line_init_pattern,
        compile self.line_conclude_pattern with
    | some re, some init, some finish =>
      if !self.multi_line then
        if !re.is_match content then
          some (self, [])
        else
          some (self, match_groups re content)
      else
        if self.lines_buffer.length = 0 then
          if init.is_match content then
            some ({ self with lines_buffer := self.lines_buffer ++ [content] }, [])
          else
            some (self, [])
        else
          let buffered := self.lines_buffer ++ [content]
          if buffered.length = i32_as_usize self.line_limit
              || (self.line_conclude_pattern != "" && finish.is_match content) then
            let total := String.intercalate " " buffered
            some ({ self with lines_buffer := [] }, match_groups re total)
          else
            some ({ self with lines_buffer := buffered }, [])
    | _, _, _ => none

/-- Embedding of the refactored single-line handler of
src/message_handler.rs lines 6-9: the regular expression is a field,
compiled at construction. -/
structure SLMessageHandler where
  re : Regex

/-- Embedding of `MessageHandler::new` in src/message_handler.rs lines
12-20: `Regex::new(search_pattern).unwrap()` runs at construction, so
an invalid pattern makes construction itself fail (`none`). -/
def SLMessageHandler.new (compile : String → Option Regex)
    (search_pattern : String) : Option SLMessageHandler :=
  (compile search_pattern).map (fun re => { re })

/-- Embedding of `MessageHandler::handle_msg` in
src/message_handler.rs lines 22-33: single-line classification with the
regex compiled once at construction; returns the capture-group sets
passed to `publish`. -/
def SLMessageHandler.handle_msg (self : SLMessageHandler) (msg : String) :
    List (List String) :=
  match get_content msg with
  | none => []
  | some content =>
    if !self.re.is_match content then []
    else match_groups self.re content

/-- Whether `pat` occurs as a contiguous run somewhere in the list. -/
def containsSub (pat : List Char) : List Char → Bool
  | [] => pat.isEmpty
  | c :: rest => pat.isPrefixOf (c :: rest) || containsSub pat rest

/-- A sample instance of the abstract `Regex` interface, used to
instantiate theorems at concrete inputs: it reports one group-free
match carrying the literal `pat` whenever `pat` occurs in the
haystack. -/
def litRegex1 (pat : String) : Regex :=
  ⟨fun s => if containsSub pat.data s.data then [⟨pat, []⟩] else []⟩

/-- A sample regex with sub-groups, one of which did not participate. -/
def demoRe : Regex :=
  ⟨fun s => if s == "hi" then [⟨"hi", [some "h", none]⟩] else []⟩

/-- Unfolding of `handle_msg` in single-line mode. -/
lemma handle_msg_single_eq (compile : String → Option Regex)
    (self : MessageHandler) (msg content : String) (re init finish : Regex)
    (hml : self.multi_line = false)
    (hc : get_content msg = some content)
    (h1 : compile self.search_pattern = some re)
    (h2 : compile self.line_init_pattern = some init)
    (h3 : compile self.line_conclude_pattern = some finish) :
    handle_msg compile self msg =
      some (self, if re.is_match content then match_groups re content else []) := by
  simp only [handle_msg, hc, h1, h2, h3, hml, Bool.not_false, if_true]
  cases hm : re.is_match content <;> simp [hm]

/-- Unfolding of `handle_msg` in multi-line mode with an empty buffer. -/
lemma handle_msg_idle_eq (compile : String → Option Regex)
    (self : MessageHandler) (msg content : String) (re init finish : Regex)
    (hml : self.multi_line = true)
    (hb : self.lines_buffer = [])
    (hc : get_content msg = some content)
    (h1 : compile self.search_pattern = some re)
    (h2 : compile self.line_init_pattern = some init)
    (h3 : compile self.line_conclude_pattern = some finish) :
    handle_msg compile self msg =
      some (if init.is_match content
            then { self with lines_buffer := [content] }
            else self, []) := by
  simp only [handle_msg, hc, h1, h2, h3, hml, hb]
  cases hm : init.is_match content <;> simp [hm]

/-- Unfolding of `handle_msg` in multi-line mode with a non-empty
buffer, keeping the source's boolean conclusion condition. -/
lemma handle_msg_acc_eq (compile : String → Option Regex)
    (self : MessageHandler) (msg content : String) (re init finish : Regex)
    (hml : self.multi_line = true)
    (hb : self.lines_buffer ≠ [])
    (hc : get_content msg = some content)
    (h1 : compile self.search_pattern = some re)
    (h2 : compile self.line_init_pattern = some init)
    (h3 : compile self.line_conclude_pattern = some finish) :
    handle_msg compile self msg =
      (if ((self.lines_buffer ++ [content]).length = i32_as_usize self.line_limit
            || (self.line_conclude_pattern != "" && finish.is_match content)) then
        some ({ self with lines_buffer := [] },
          match_groups re (String.intercalate " " (self.lines_buffer ++ [content])))
      else
        some ({ self with lines_buffer := self.lines_buffer ++ [content] }, [])) := by
  have hlen : ¬ self.lines_buffer.length = 0 := by
    simpa [List.length_eq_zero] using hb
  simp only [handle_msg, hc, h1, h2, h3, hml, Bool.not_true, if_neg hlen]
  simp

/-- C2: in single-line mode, if the search pattern does not match the
payload, classify returns the empty list; otherwise it returns one
capture-group set per non-overlapping match found scanning left to
right, each set headed by the full match text and followed by the
participating sub-group captures, absent groups omitted. -/
theorem single_line_classify (compile : String → Option Regex)
    (self : MessageHandler) (msg content : String) (re init finish : Regex)
    (hml : self.multi_line = false)
    (hc : get_content msg = some content)
    (h1 : compile self.search_pattern = some re)
    (h2 : compile self.line_init_pattern = some init)
    (h3 : compile self.line_conclude_pattern = some finish) :
    handle_msg compile self msg =
      some (self,
        if re.is_match content then
          (re.capturesIter content).map
            (fun g => g.full :: g.groups.filterMap id)
        else []) := by
  rw [handle_msg_single_eq compile self msg content re init finish hml hc h1 h2 h3]
  simp [match_groups, List.filterMap_cons]

/-- Witness for C2 on a concrete regex with a non-participating group. -/
theorem single_line_classify_witness :
    handle_msg (fun _ => some demoRe) (MessageHandler.new "P" false 0 "I" "C")
        ":a:hi" =
      some (MessageHandler.new "P" false 0 "I" "C",
        if demoRe.is_match "hi" then
          (demoRe.capturesIter "hi").map
            (fun g => g.full :: g.groups.filterMap id)
        else []) :=
  single_line_classify (fun _ => some demoRe)
    (MessageHandler.new "P" false 0 "I" "C") ":a:hi" "hi"
    demoRe demoRe demoRe rfl (by decide) rfl rfl rfl

/-- C4: in multi-line mode with an empty buffer (idle state), a payload
matching the init pattern is pushed into the buffer (accumulating
state), any other payload is discarded, and in both cases classify
returns the empty list, so no dispatch happens on the init line. -/
theorem multi_line_idle (compile : String → Option Regex)
    (self : MessageHandler) (msg content : String) (re init finish : Regex)
    (hml : self.multi_line = true)
    (hb : self.lines_buffer = [])
    (hc : get_content msg = some content)
    (h1 : compile self.search_pattern = some re)
    (h2 : compile self.line_init_pattern = some init)
    (h3 : compile self.line_conclude_pattern = some finish) :
    handle_msg compile self msg =
      some (if init.is_match content
            then { self with lines_buffer := [content] }
            else self, []) :=
  handle_msg_idle_eq compile self msg content re init finish hml hb hc h1 h2 h3

/-- Witness for C4 on a concrete init pattern that matches the line. -/
theorem multi_line_idle_witness :
    handle_msg (fun p => some (litRegex1 p)) (MessageHandler.new "P" true 4 "I" "")
        ":a:I starts" =
      some (if (litRegex1 "I").is_match "I starts"
            then { MessageHandler.new "P" true 4 "I" "" with
                    lines_buffer := ["I starts"] }
            else MessageHandler.new "P" true 4 "I" "", []) :=
  multi_line_idle (fun p => some (litRegex1 p))
    (MessageHandler.new "P" true 4 "I" "") ":a:I starts" "I starts"
    (litRegex1 "P") (litRegex1 "I") (litRegex1 "") rfl rfl (by decide) rfl rfl rfl

/-- C1: in multi-line mode with a non-empty buffer, the payload is
appended to the buffer, and the buffer concludes exactly when the new
buffer length equals the configured line limit or a non-empty conclude
pattern is configured and the payload matches it; on conclusion the
buffered lines are joined with single spaces into a candidate, the
buffer is cleared, and the find-all procedure against the candidate
gives the returned (possibly empty) capture-group sets; otherwise the
empty list is returned and accumulation continues. -/
theorem multi_line_accumulate (compile : String → Option Regex)
    (self : MessageHandler) (msg content : String) (re init finish : Regex)
    (hml : self.multi_line = true)
    (hb : self.lines_buffer ≠ [])
    (hc : get_content msg = some content)
    (h1 : compile self.search_pattern = some re)
    (h2 : compile self.line_init_pattern = some init)
    (h3 : compile self.line_conclude_pattern = some finish)
    (hrange : 0 ≤ self.line_limit ∧ self.line_limit < 2 ^ 31) :
    handle_msg compile self msg =
      (if (self.lines_buffer ++ [content]).length = self.line_limit.toNat ∨
          (self.line_conclude_pattern ≠ "" ∧ finish.is_match content = true) then
        some ({ self with lines_buffer := [] },
          match_groups re (String.intercalate " " (self.lines_buffer ++ [content])))
      else
        some ({ self with lines_buffer := self.lines_buffer ++ [content] }, [])) := by
  rw [handle_msg_acc_eq compile self msg content re init finish hml hb hc h1 h2 h3]
  have husize : i32_as_usize self.line_limit = self.line_limit.toNat := by
    obtain ⟨hr1, hr2⟩ := hrange
    have h31 : ((2 : Int) ^ 31) = 2147483648 := by norm_num
    have h64 : ((2 : Int) ^ 64) = 18446744073709551616 := by norm_num
    rw [h31] at hr2
    unfold i32_as_usize
    rw [h64]
    omega
  rw [husize]
  refine if_congr ?_ rfl rfl
  simp [Bool.or_eq_true, decide_eq_true_eq, Bool.and_eq_true, bne_iff_ne]

/-- A concrete accumulating handler state for instantiating theorems. -/
def wSelf1 : MessageHandler :=
  { search_pattern := "m", multi_line := true, line_limit := 2,
    line_init_pattern := "I", line_conclude_pattern := "",
    lines_buffer := ["a"] }

/-- Witness for C1: the second line reaches the limit of 2, so the
buffer concludes. -/
theorem multi_line_accumulate_witness :
    handle_msg (fun p => some (litRegex1 p)) wSelf1 ":x:b m" =
      (if (wSelf1.lines_buffer ++ ["b m"]).length = wSelf1.line_limit.toNat ∨
          (wSelf1.line_conclude_pattern ≠ "" ∧
            (litRegex1 "").is_match "b m" = true) then
        some ({ wSelf1 with lines_buffer := [] },
          match_groups (litRegex1 "m")
            (String.intercalate " " (wSelf1.lines_buffer ++ ["b m"])))
      else
        some ({ wSelf1 with lines_buffer := wSelf1.lines_buffer ++ ["b m"] }, [])) :=
  multi_line_accumulate (fun p => some (litRegex1 p)) wSelf1 ":x:b m" "b m"
    (litRegex1 "m") (litRegex1 "I") (litRegex1 "") rfl (by decide) (by decide)
    rfl rfl rfl ⟨by decide, by decide⟩

/-- C7: across every `handle_msg` transition the buffer is either left
unchanged, cleared, or extended by exactly the extracted payload
(append-only); and whenever a non-empty buffer meets a conclusion
condition the resulting state has an empty buffer, whatever the
returned capture-group sets are (in particular also when the assembled
candidate fails to match), so a new init trigger is needed before
accumulation reopens. -/
theorem lines_buffer_invariant :
    (∀ (compile : String → Option Regex) (self self' : MessageHandler)
        (msg : String) (out : List (List String)),
      handle_msg compile self msg = some (self', out) →
      self'.lines_buffer = self.lines_buffer ∨ self'.lines_buffer = [] ∨
        ∃ content, get_content msg = some content ∧
          self'.lines_buffer = self.lines_buffer ++ [content]) ∧
    (∀ (compile : String → Option Regex) (self : MessageHandler)
        (msg content : String) (re init finish : Regex),
      self.multi_line = true → self.lines_buffer ≠ [] →
      get_content msg = some content →
      compile self.search_pattern = some re →
      compile self.line_init_pattern = some init →
      compile self.line_conclude_pattern = some finish →
      ((self.lines_buffer ++ [content]).length = i32_as_usize self.line_limit ∨
        (self.line_conclude_pattern ≠ "" ∧ finish.is_match content = true)) →
      ∃ out, handle_msg compile self msg =
        some ({ self with lines_buffer := [] }, out)) := by
  constructor
  · intro compile self self' msg out h
    rcases hg : get_content msg with _ | content
    · simp only [handle_msg, hg, Option.some.injEq, Prod.mk.injEq] at h
      exact Or.inl (by rw [← h.1])
    · rcases h1 : compile self.search_pattern with _ | re
      · simp [handle_msg, hg, h1] at h
      · rcases h2 : compile self.line_init_pattern with _ | init
        · simp [handle_msg, hg, h1, h2] at h
        · rcases h3 : compile self.line_conclude_pattern with _ | finish
          · simp [handle_msg, hg, h1, h2, h3] at h
          · cases hml : self.multi_line with
            | false =>
              rw [handle_msg_single_eq compile self msg content re init finish
                hml hg h1 h2 h3] at h
              simp only [Option.some.injEq, Prod.mk.injEq] at h
              exact Or.inl (by rw [← h.1])
            | true =>
              by_cases hb : self.lines_buffer = []
              · rw [handle_msg_idle_eq compile self msg content re init finish
                  hml hb hg h1 h2 h3] at h
                simp only [Option.some.injEq, Prod.mk.injEq] at h
                cases hm : init.is_match content
                · simp only [hm, Bool.false_eq_true, if_false] at h
                  exact Or.inl (by rw [← h.1])
                · simp only [hm, if_true] at h
                  refine Or.inr (Or.inr ⟨content, rfl, ?_⟩)
                  rw [← h.1, hb]
                  rfl
              · rw [handle_msg_acc_eq compile self msg content re init finish
                  hml hb hg h1 h2 h3] at h
                split_ifs at h
                · simp only [Option.some.injEq, Prod.mk.injEq] at h
                  exact Or.inr (Or.inl (by rw [← h.1]))
                · simp only [Option.some.injEq, Prod.mk.injEq] at h
                  exact Or.inr (Or.inr ⟨content, rfl, by rw [← h.1]⟩)
  · intro compile self msg content re init finish hml hb hg h1 h2 h3 hconc
    rw [handle_msg_acc_eq compile self msg content re init finish hml hb hg h1 h2 h3]
    have hcond : (((self.lines_buffer ++ [content]).length =
        i32_as_usize self.line_limit : Bool) ||
        (self.line_conclude_pattern != "" && finish.is_match content)) = true := by
      simp only [Bool.or_eq_true, decide_eq_true_eq, Bool.and_eq_true,
        bne_iff_ne]
      rcases hconc with hconc | ⟨hne, hfm⟩
      · exact Or.inl hconc
      · exact Or.inr ⟨hne, hfm⟩
    rw [if_pos hcond]
    exact ⟨_, rfl⟩

/-- Witness for C7: the concrete conclusion step of `wSelf1` clears the
buffer. -/
theorem lines_buffer_invariant_witness :
    ∃ out, handle_msg (fun p => some (litRegex1 p)) wSelf1 ":x:b m" =
      some ({ wSelf1 with lines_buffer := [] }, out) :=
  lines_buffer_invariant.2 (fun p => some (litRegex1 p)) wSelf1 ":x:b m" "b m"
    (litRegex1 "m") (litRegex1 "I") (litRegex1 "") rfl (by decide) (by decide)
    rfl rfl rfl (Or.inl (by decide))

/-- A handler configured with `line_limit = 1`, an init pattern that
matches its own line, and a search pattern matching it too. -/
def h6 : MessageHandler := MessageHandler.new "START" true 1 "START" ""

/-- C6 evaluated on the code: with `line_limit = 1` the init line is
pushed and `handle_msg` returns the empty list without evaluating the
candidate (the source's idle branch has no limit check, only a
`TODO: Handle line limit of 1`); the next line grows the buffer to
length 2, which never equals the limit 1, so no conclusion happens
there either — even though the find-all procedure on the init line
alone does produce a capture-group set, as the last conjunct shows. -/
theorem line_limit_one_never_concludes :
    handle_msg (fun p => some (litRegex1 p)) h6 ":a:START" =
      some ({ h6 with lines_buffer := ["START"] }, []) ∧
    handle_msg (fun p => some (litRegex1 p))
        { h6 with lines_buffer := ["START"] } ":a:more" =
      some ({ h6 with lines_buffer := ["START", "more"] }, []) ∧
    match_groups (litRegex1 "START") "START" = [["START"]] := by
  refine ⟨by decide, by decide, by decide⟩

/-- A sample fallible compile function: the (genuinely invalid) regex
pattern `"("` fails to compile, everything else compiles. -/
def compileBad : String → Option Regex :=
  fun p => if p == "(" then none else some (litRegex1 p)

/-- C8 on the code of src/main.rs: constructing the handler with the
invalid pattern `"("` succeeds (nothing is compiled at construction),
and the failure instead surfaces as a panic (`none`) at the first
`handle_msg` carrying extractable content — refuting both the
construction-time-failure part and the no-runtime-failure part of the
claim. -/
theorem pattern_construction_counterexample :
    compileBad "(" = none ∧
    (MessageHandler.new "(" false 0 "a" "").search_pattern = "(" ∧
    handle_msg compileBad (MessageHandler.new "(" false 0 "a" "") ":a:hi" =
      none := by
  refine ⟨rfl, rfl, by decide⟩

/-- C8 as amended: in the refactored module handler
(src/message_handler.rs) the search pattern is compiled exactly once at
construction and an invalid pattern makes construction fail; in the
handler of src/main.rs construction stores the three pattern strings
uncompiled and always succeeds, every `handle_msg` call with
extractable content recompiles all three patterns and panics exactly
when one of them is invalid, and with valid patterns a miss is not an
error: `handle_msg` then returns normally. -/
theorem pattern_compilation_spec :
    (∀ (compile : String → Option Regex) (p : String),
      (SLMessageHandler.new compile p).isSome ↔ (compile p).isSome) ∧
    (∀ (sp : String) (ml : Bool) (ll : Int) (ip cp : String),
      (MessageHandler.new sp ml ll ip cp).search_pattern = sp ∧
      (MessageHandler.new sp ml ll ip cp).lines_buffer = []) ∧
    (∀ (compile : String → Option Regex) (self : MessageHandler)
        (msg content : String),
      get_content msg = some content →
      (handle_msg compile self msg = none ↔
        (compile self.search_pattern = none ∨
         compile self.line_init_pattern = none ∨
         compile self.line_conclude_pattern = none))) ∧
    (∀ (compile : String → Option Regex) (self : MessageHandler)
        (msg : String),
      get_content msg = none → handle_msg compile self msg = some (self, [])) := by
  refine ⟨?_, ?_, ?_, ?_⟩
  · intro compile p
    simp [SLMessageHandler.new]
  · intro sp ml ll ip cp
    exact ⟨rfl, rfl⟩
  · intro compile self msg content hg
    constructor
    · intro hnone
      rcases h1 : compile self.search_pattern with _ | re
      · exact Or.inl rfl
      rcases h2 : compile self.line_init_pattern with _ | init
      · exact Or.inr (Or.inl rfl)
      rcases h3 : compile self.line_conclude_pattern with _ | finish
      · exact Or.inr (Or.inr rfl)
      exfalso
      cases hml : self.multi_line
      · rw [handle_msg_single_eq compile self msg content re init finish
          hml hg h1 h2 h3] at hnone
        simp at hnone
      · by_cases hb : self.lines_buffer = []
        · rw [handle_msg_idle_eq compile self msg content re init finish
            hml hb hg h1 h2 h3] at hnone
          simp at hnone
        · rw [handle_msg_acc_eq compile self msg content re init finish
            hml hb hg h1 h2 h3] at hnone
          split_ifs at hnone
    · rintro (h | h | h)
      · simp [handle_msg, hg, h]
      · rcases h1 : compile self.search_pattern with _ | re
        · simp [handle_msg, hg, h1]
        · simp [handle_msg, hg, h1, h]
      · rcases h1 : compile self.search_pattern with _ | re
        · simp [handle_msg, hg, h1]
        · rcases h2 : compile self.line_init_pattern with _ | init
          · simp [handle_msg, hg, h1, h2]
          · simp [handle_msg, hg, h1, h2, h]
  · intro compile self msg hg
    simp [handle_msg, hg]

/-- Witness for C8 as amended: at the invalid pattern `"("`, module
construction fails, and the main.rs handler fails at the first
content-carrying message rather than at construction. -/
theorem pattern_compilation_spec_witness :
    ((SLMessageHandler.new compileBad "(").isSome ↔
      (compileBad "(").isSome) ∧
    handle_msg compileBad (MessageHandler.new "(" true 4 "i" "") ":a:hi" =
      none :=
  ⟨pattern_compilation_spec.1 compileBad "(",
    (pattern_compilation_spec.2.2.1 compileBad
        (MessageHandler.new "(" true 4 "i" "") ":a:hi" "hi" (by decide)).mpr
      (Or.inl rfl)⟩

/-- Join a list of segments, placing `sep` between consecutive
segments. -/
def joinSep (sep : List Char) : List (List Char) → List Char
  | [] => []
  | [x] => x
  | x :: y :: t => x ++ sep ++ joinSep sep (y :: t)

/-- Fuel-indexed core of Rust `str::replace`: replace every
non-overlapping occurrence of `pat`, scanning left to right. Each step
consumes at least one character, so fuel equal to the input length
suffices; the fuel only makes the recursion structural. -/
def replaceAllF (pat repl : List Char) : Nat → List Char → List Char
  | _, [] => []
  | 0, s => s
  | fuel + 1, c :: rest =>
    if pat != [] && pat.isPrefixOf (c :: rest) then
      repl ++ replaceAllF pat repl fuel ((c :: rest).drop pat.length)
    else
      c :: replaceAllF pat repl fuel rest

/-- Rust `str::replace pat -> repl` on character lists. -/
def replaceAll (pat repl s : List Char) : List Char :=
  replaceAllF pat repl s.length s

/-- Rust `body.replace(&pat, &repl)` on strings. -/
def strReplace (s pat repl : String) : String :=
  ⟨replaceAll pat.data repl.data s.data⟩

/-- The token `format!("${{{}}}", idx)`, i.e. a dollar sign, an opening
brace, the decimal index, and a closing brace. -/
def placeholder (i : Nat) : String := "$\x7b" ++ Nat.repr i ++ "\x7d"

/-- Embedding of `templ_replace` (src/webhook_publisher.rs lines
67-75): fold over the enumerated capture group, each pass replacing
every occurrence of the positional token in the result of the previous
pass. -/
def templ_replace (templ : String) (group : List String) : String :=
  group.enum.foldl (fun body p => strReplace body (placeholder p.1) p.2) templ

lemma replaceAllF_split (pat repl : List Char) (hp : pat ≠ []) :
    ∀ (fuel : Nat) (s : List Char), s.length ≤ fuel →
    ∃ segs : List (List Char), segs ≠ [] ∧ s = joinSep pat segs ∧
      replaceAllF pat repl fuel s = joinSep repl segs ∧
      ∀ seg ∈ segs, ¬ pat <:+: seg := by
  intro fuel
  induction fuel with
  | zero =>
    intro s hs
    have hnil : s = [] := List.length_eq_zero.mp (Nat.le_zero.mp hs)
    subst hnil
    refine ⟨[[]], by simp, rfl, rfl, ?_⟩
    intro seg hseg hinf
    simp only [List.mem_singleton] at hseg
    subst hseg
    exact hp (List.eq_nil_of_infix_nil hinf)
  | succ fuel ih =>
    intro s hs
    cases s with
    | nil =>
      refine ⟨[[]], by simp, rfl, rfl, ?_⟩
      intro seg hseg hinf
      simp only [List.mem_singleton] at hseg
      subst hseg
      exact hp (List.eq_nil_of_infix_nil hinf)
    | cons c rest =>
      by_cases hcond : (pat != [] && pat.isPrefixOf (c :: rest)) = true
      · have hpre : pat <+: c :: rest :=
          List.isPrefixOf_iff_prefix.mp ((Bool.and_eq_true _ _).mp hcond).2
        obtain ⟨t, ht⟩ := hpre
        have hdrop : (c :: rest).drop pat.length = t := by
          rw [← ht, List.drop_left]
        have hplen : 0 < pat.length := List.length_pos.mpr hp
        have hlt : t.length ≤ fuel := by
          have hlen : (c :: rest).length = pat.length + t.length := by
            rw [← ht, List.length_append]
          simp only [List.length_cons] at hlen hs
          omega
        obtain ⟨segs, hne, hjoin, hrepl, hfree⟩ := ih t hlt
        obtain ⟨a, segs', rfl⟩ := List.exists_cons_of_ne_nil hne
        refine ⟨[] :: a :: segs', by simp, ?_, ?_, ?_⟩
        · show c :: rest = [] ++ pat ++ joinSep pat (a :: segs')
          rw [List.nil_append, ← hjoin, ht]
        · show replaceAllF pat repl (fuel + 1) (c :: rest) =
            [] ++ repl ++ joinSep repl (a :: segs')
          simp only [replaceAllF, hcond, if_true, List.nil_append]
          rw [hdrop, hrepl]
        · intro seg hseg
          rcases List.mem_cons.mp hseg with hseg | hseg
          · subst hseg
            intro hinf
            exact hp (List.eq_nil_of_infix_nil hinf)
          · exact hfree seg hseg
      · have hnpre : ¬ pat <+: (c :: rest) := by
          intro hp'
          apply hcond
          rw [Bool.and_eq_true]
          exact ⟨bne_iff_ne.mpr hp, List.isPrefixOf_iff_prefix.mpr hp'⟩
        have hlt : rest.length ≤ fuel := by
          simp only [List.length_cons] at hs
          omega
        obtain ⟨segs, hne, hjoin, hrepl, hfree⟩ := ih rest hlt
        obtain ⟨a, segs', rfl⟩ := List.exists_cons_of_ne_nil hne
        have hstep : replaceAllF pat repl (fuel + 1) (c :: rest) =
            c :: replaceAllF pat repl fuel rest := by
          simp only [replaceAllF, hcond, if_false]
          simp [hcond]
        have haprefix : a <+: rest := by
          cases segs' with
          | nil => exact hjoin ▸ List.prefix_refl a
          | cons b t' =>
            rw [hjoin]
            show a <+: a ++ pat ++ joinSep pat (b :: t')
            rw [List.append_assoc]
            exact List.prefix_append a _
        refine ⟨(c :: a) :: segs', by simp, ?_, ?_, ?_⟩
        · cases segs' with
          | nil =>
            show c :: rest = c :: a
            rw [hjoin]
            rfl
          | cons b t' =>
            show c :: rest = (c :: a) ++ pat ++ joinSep pat (b :: t')
            rw [hjoin]
            rfl
        · rw [hstep, hrepl]
          cases segs' with
          | nil => rfl
          | cons b t' => rfl
        · intro seg hseg
          rcases List.mem_cons.mp hseg with hseg | hseg
          · subst hseg
            intro hinf
            rcases List.infix_cons_iff.mp hinf with hpre' | hinf'
            · exact hnpre (hpre'.trans (List.cons_prefix_cons.mpr
                ⟨rfl, haprefix⟩))
            · exact hfree a (List.mem_cons_self a segs') hinf'
          · exact hfree seg (List.mem_cons_of_mem a hseg)

lemma enum_foldl_range (f : String → Nat → String → String) :
    ∀ (l : List String) (k : Nat) (b : String),
      (l.enumFrom k).foldl (fun body p => f body p.1 p.2) b =
        (List.range l.length).foldl
          (fun body j => f body (k + j) (l.getD j "")) b := by
  intro l
  induction l with
  | nil => intro k b; rfl
  | cons v vs ih =>
    intro k b
    simp only [List.enumFrom, List.foldl_cons, List.length_cons]
    rw [ih (k + 1), List.range_succ_eq_map]
    simp only [List.foldl_cons, List.foldl_map, List.getD_cons_zero,
      Nat.add_zero]
    have harg : (fun (body : String) (j : Nat) =>
        f body (k + 1 + j) (vs.getD j "")) =
        (fun body j => f body (k + (j + 1)) ((v :: vs).getD (j + 1) "")) := by
      funext body j
      rw [List.getD_cons_succ]
      have : k + 1 + j = k + (j + 1) := by omega
      rw [this]
    rw [harg]

/-- C3: `templ_replace` performs one pass per index of the value list,
in increasing index order, each pass operating on the result of the
previous one and replacing every literal occurrence of the token for
that index: each pass decomposes its input into token-free segments
separated by the token and rejoins them with the value instead, and a
string not containing the token is left verbatim (so placeholders with
no corresponding index survive unchanged and indices with no
placeholder change nothing). -/
theorem templ_replace_spec :
    (∀ (templ : String) (values : List String),
      templ_replace templ values =
        (List.range values.length).foldl
          (fun body i => strReplace body (placeholder i) (values.getD i ""))
          templ) ∧
    (∀ (s pat repl : String), pat.data ≠ [] →
      ∃ segs : List (List Char), segs ≠ [] ∧
        s.data = joinSep pat.data segs ∧
        (strReplace s pat repl).data = joinSep repl.data segs ∧
        ∀ seg ∈ segs, ¬ pat.data <:+: seg) ∧
    (∀ (s pat repl : String), ¬ pat.data <:+: s.data →
      strReplace s pat repl = s) := by
  have hsplit : ∀ (pat repl s : List Char), pat ≠ [] →
      ∃ segs : List (List Char), segs ≠ [] ∧ s = joinSep pat segs ∧
        replaceAll pat repl s = joinSep repl segs ∧
        ∀ seg ∈ segs, ¬ pat <:+: seg :=
    fun pat repl s hp => replaceAllF_split pat repl hp s.length s le_rfl
  refine ⟨?_, ?_, ?_⟩
  · intro templ values
    show (values.enumFrom 0).foldl _ templ = _
    rw [enum_foldl_range (fun body i v => strReplace body (placeholder i) v)]
    simp only [Nat.zero_add]
  · intro s pat repl hp
    obtain ⟨segs, h1, h2, h3, h4⟩ := hsplit pat.data repl.data s.data hp
    exact ⟨segs, h1, h2, h3, h4⟩
  · intro s pat repl hinf
    have hp : pat.data ≠ [] := by
      intro h0
      exact hinf (h0 ▸ ⟨[], s.data, by simp⟩)
    obtain ⟨segs, hne, hjoin, hrepl, hfree⟩ :=
      hsplit pat.data repl.data s.data hp
    obtain ⟨a, segs', rfl⟩ := List.exists_cons_of_ne_nil hne
    cases segs' with
    | nil =>
      cases s with
      | mk sd =>
        apply congrArg String.mk
        exact hrepl.trans hjoin.symm
    | cons b t' =>
      exfalso
      apply hinf
      rw [hjoin]
      exact ⟨a, joinSep pat.data (b :: t'), rfl⟩

/-- Witness for C3 at concrete inputs: the spec's own rendering example
for the pass structure, and an unchanged string for the no-occurrence
conjunct. -/
theorem templ_replace_spec_witness :
    (templ_replace "u=$\x7b0\x7d" ["alice", "42"] =
      (List.range (["alice", "42"] : List String).length).foldl
        (fun body i => strReplace body (placeholder i)
          ((["alice", "42"] : List String).getD i "")) "u=$\x7b0\x7d") ∧
    strReplace "abc" "d" "e" = "abc" :=
  ⟨templ_replace_spec.1 "u=$\x7b0\x7d" ["alice", "42"],
    templ_replace_spec.2.2 "abc" "d" "e" (by decide)⟩

/-- Valid characters of an HTTP header value, modelled from the http
crate (outside this repository): `HeaderValue::from_str` accepts a
string iff every byte is horizontal tab (9) or lies in 32..=255
excluding 127; since every byte of a multi-byte UTF-8 encoding is at
least 0x80, at the character level this is exactly the following test
on each char. -/
def header_value_ok (c : Char) : Bool :=
  c.toNat == 9 || (32 ≤ c.toNat && c.toNat != 127)

/-- `templ_replace(value, group).parse::<HeaderValue>()`, modelled from
the http crate: `some` iff every character is a valid header-value
character. -/
def headerValueParse (s : String) : Option String :=
  if s.data.all header_value_ok then some s else none

/-- Embedding of the `WebhookPublisher` struct
(src/webhook_publisher.rs lines 5-14): the reqwest client is omitted
(the HTTP transport is out of scope) and the endpoint URI is kept in
its string form. The HashMap of header name to value template, whose
keys are distinct, is modelled as an association list. -/
structure WebhookPublisher where
  endpoint : String
  template : String
  headers : List (String × String)

/-- Embedding of `to_headers` (src/webhook_publisher.rs lines 77-84):
fold over the header map, rendering each value template against the
group and parsing the result as a header value; the `unwrap` makes the
whole fold `none` (a panic) as soon as any rendered value is invalid. -/
def to_headers (headers : List (String × String)) (group : List String) :
    Option (List (String × String)) :=
  headers.foldl
    (fun accum kv =>
      match accum, headerValueParse (templ_replace kv.2 group) with
      | some acc, some hv => some (acc ++ [(kv.1, hv)])
      | _, _ => none)
    (some [])

/-- Embedding of the synchronous prefix of
`WebhookPublisher::publish_group` (src/webhook_publisher.rs lines
40-64): the body and the headers are rendered before `task::spawn`
runs, so the value here is the request (endpoint, body, headers) that
the spawned task would POST, and `none` models the panic of the
header-value `unwrap`, which happens before any request for this group
exists to be sent. -/
def publish_group (self : WebhookPublisher) (group : List String) :
    Option (String × String × List (String × String)) :=
  let body := templ_replace self.template group
  match to_headers self.headers group with
  | none => none
  | some hs => some (self.endpoint, body, hs)

lemma to_headers_eq_none (group : List String) :
    ∀ (l : List (String × String))
      (acc : Option (List (String × String))),
      (acc = none ∨ ∃ kv ∈ l,
        headerValueParse (templ_replace kv.2 group) = none) →
      l.foldl
        (fun accum kv =>
          match accum, headerValueParse (templ_replace kv.2 group) with
          | some acc, some hv => some (acc ++ [(kv.1, hv)])
          | _, _ => none)
        acc = none := by
  intro l
  induction l with
  | nil =>
    intro acc h
    rcases h with h | ⟨kv, hmem, _⟩
    · exact h
    · exact absurd hmem (List.not_mem_nil kv)
  | cons kv t ih =>
    intro acc h
    rw [List.foldl_cons]
    apply ih
    rcases h with h | ⟨kv', hmem, hbad⟩
    · subst h
      exact Or.inl rfl
    · rcases List.mem_cons.mp hmem with hkv | hmem'
      · subst hkv
        left
        rw [hbad]
        cases acc <;> rfl
      · exact Or.inr ⟨kv', hmem', hbad⟩

/-- C10: whenever some header-value template, rendered against the
capture-group set, yields a string that is not a valid HTTP header
value, the pre-spawn phase of `publish_group` ends in the header-parse
panic (`none`), so no request for that set is ever produced — the set
is not dispatched and the failure is not the logged, locally recovered
kind. -/
theorem publish_group_header_panic (self : WebhookPublisher)
    (group : List String)
    (h : ∃ kv ∈ self.headers,
      (templ_replace kv.2 group).data.all header_value_ok = false) :
    publish_group self group = none := by
  obtain ⟨kv, hmem, hbad⟩ := h
  have hparse : headerValueParse (templ_replace kv.2 group) = none := by
    unfold headerValueParse
    rw [hbad]
    rfl
  have hth : to_headers self.headers group = none :=
    to_headers_eq_none group self.headers (some [])
      (Or.inr ⟨kv, hmem, hparse⟩)
  unfold publish_group
  rw [hth]

/-- A concrete publisher whose single header value is the first capture
verbatim. -/
def wPub : WebhookPublisher :=
  { endpoint := "http://e", template := "b=$\x7b0\x7d",
    headers := [("X-Api-Key", "$\x7b0\x7d")] }

/-- Witness for C10: a captured value containing a newline renders into
the header value and makes `publish_group` panic. -/
theorem publish_group_header_panic_witness :
    publish_group wPub ["bad\nvalue"] = none :=
  publish_group_header_panic wPub ["bad\nvalue"]
    ⟨("X-Api-Key", "$\x7b0\x7d"), by decide, by decide⟩

end IrcHook
